import Mathlib

/-!
Verification of the spin/cascade resolution engine of the math-sdk repository.

The development shallowly embeds, in Lean, the game-specific code of the three
sample games under `src/games/` (`0_0_alchemy`, `0_0_volley_siege`,
`0_0_guillotine`) that the specification describes, together with models of
the framework pieces (`src/calculations`, the base game state) which are not
part of the visible sources; the latter are marked `Modelled from the spec:`.

Boards are lists of reels, each a list of symbols; the position-multiplier
grids are lists of lists of naturals; money amounts are rationals; the random
stream is an explicit indexed stream of rationals in [0, 1), consumed one
value per sampling call, mirroring the single seeded `random` stream the
Python code draws from.
-/

namespace MathSDK

/-- A board symbol: its name, the optional `reel_multiplier` attribute used by
the guillotine game, and the transient explode flag used during cascades. -/
structure Sym where
  name : String
  reelMultiplier : Option ℚ := none
  explode : Bool := false
deriving DecidableEq

/-- `create_symbol`: a fresh symbol with no attributes. -/
def create_symbol (n : String) : Sym := { name := n }

/-- A board: one list of symbols per reel. -/
abbrev Board := List (List Sym)

/-- The deterministic random stream: an indexed stream of rationals in [0,1)
together with the index of the next value to be consumed.  This models the
single `random` stream the Python engine samples from. -/
structure Rng where
  vals : ℕ → ℚ
  idx : ℕ

/-- Consume one value from the stream. -/
def Rng.next (r : Rng) : ℚ × Rng := (r.vals r.idx, ⟨r.vals, r.idx + 1⟩)

/-- Indexed map over a list, starting at index `n`. -/
def mapRowFrom {α : Type} (f : ℕ → α → α) : ℕ → List α → List α
  | _, [] => []
  | n, a :: t => f n a :: mapRowFrom f (n + 1) t

theorem length_mapRowFrom {α : Type} (f : ℕ → α → α) :
    ∀ (n : ℕ) (l : List α), (mapRowFrom f n l).length = l.length := by
  intro n l
  induction l generalizing n with
  | nil => rfl
  | cons a t ih => simp [mapRowFrom, ih]

theorem get?_mapRowFrom {α : Type} (f : ℕ → α → α) :
    ∀ (n : ℕ) (l : List α) (i : ℕ),
      (mapRowFrom f n l).get? i = (l.get? i).map (f (n + i)) := by
  intro n l
  induction l generalizing n with
  | nil => intro i; rfl
  | cons a t ih =>
    intro i
    cases i with
    | zero => rfl
    | succ j =>
      simp only [mapRowFrom, List.get?_cons_succ, ih (n + 1) j]
      have : n + 1 + j = n + (j + 1) := by omega
      rw [this]

/-! ### Position-multiplier grids (alchemy `position_multipliers`,
volley_siege `multiplier_grid`) -/

/-- A position-multiplier grid: one natural per board cell. -/
abbrev Grid := List (List ℕ)

/-- Read cell `(i, j)` of a grid (outer index first). -/
def getCell (g : Grid) (i j : ℕ) : ℕ := (g.getD i []).getD j 0

/-- Write cell `(i, j)` of a grid. -/
def setCell (g : Grid) (i j : ℕ) (v : ℕ) : Grid :=
  g.set i ((g.getD i []).set j v)

/-- A win record: raw amount and the list of covered `(reel, row)` positions. -/
structure WinRec where
  win : ℚ := 0
  positions : List (ℕ × ℕ) := []
deriving DecidableEq

/-- `maximum_board_mult` from the alchemy game config. -/
def maximum_board_mult : ℕ := 64

/-- Alchemy `GameExecutables.update_grid_mults`: when the pass has a positive
total win, every position of every win record has its grid multiplier doubled
and then clamped to `maximum_board_mult`, in win-record order. -/
def update_grid_mults (cap : ℕ) (totalWin : ℚ) (wins : List WinRec) (g : Grid) : Grid :=
  if 0 < totalWin then
    wins.foldl
      (fun acc w =>
        w.positions.foldl
          (fun acc2 p => setCell acc2 p.1 p.2 (min (getCell acc2 p.1 p.2 * 2) cap)) acc)
      g
  else g

/-- Volley-siege `GameState.update_cell_multipliers`: doubles the grid value at
`(row, reel)` for every position of every win record; no clamping occurs. -/
def update_cell_multipliers (wins : List WinRec) (g : Grid) : Grid :=
  wins.foldl
    (fun acc w =>
      w.positions.foldl
        (fun acc2 p => setCell acc2 p.2 p.1 (getCell acc2 p.2 p.1 * 2)) acc)
    g

/-- Modelled from the spec: `apply_wins(win_records)` as §4.4 words it — every
position covered by any win of the current evaluation pass is doubled exactly
once (not once per win record) and then clamped to the configured maximum.
Used only as the comparison point for the refinement claim about
`update_grid_mults`. -/
def apply_wins_spec (cap : ℕ) (wins : List WinRec) (g : Grid) : Grid :=
  ((wins.map WinRec.positions).flatten.dedup).foldl
    (fun acc p => setCell acc p.1 p.2 (min (getCell acc p.1 p.2 * 2) cap)) g

/-- Alchemy `reset_grid_mults`: all grid position multipliers start at 1. -/
def reset_grid_mults (numReels : ℕ) (numRows : ℕ → ℕ) : Grid :=
  (List.range numReels).map (fun r => List.replicate (numRows r) 1)

/-- Volley-siege `init_multiplier_grid`: the rows × cols grid reset to 1,
called at the start of base-game spins only. -/
def init_multiplier_grid (nRows nCols : ℕ) : Grid :=
  List.replicate nRows (List.replicate nCols 1)

theorem length_setCell (g : Grid) (a b v : ℕ) : (setCell g a b v).length = g.length :=
  List.length_set ..

theorem row_setCell (g : Grid) (a b v : ℕ) (i : ℕ) :
    (setCell g a b v).getD i [] =
      if i = a ∧ a < g.length then (g.getD a []).set b v else g.getD i [] := by
  unfold setCell
  by_cases hia : i = a
  · subst hia
    by_cases hl : i < g.length
    · rw [if_pos ⟨rfl, hl⟩, List.getD_eq_getD_get?, List.get?_set_eq_of_lt _ hl,
        Option.getD_some]
    · rw [if_neg (fun hc => hl hc.2)]
      have hlen : g.length ≤ i := by omega
      rw [List.getD_eq_default _ _ (by rw [List.length_set]; omega),
        List.getD_eq_default _ _ hlen]
  · rw [if_neg (fun hc => hia hc.1), List.getD_eq_getD_get?,
      List.get?_set_ne _ _ (fun hc => hia hc.symm), ← List.getD_eq_getD_get?]

theorem rowLen_setCell (g : Grid) (a b v : ℕ) (i : ℕ) :
    ((setCell g a b v).getD i []).length = (g.getD i []).length := by
  rw [row_setCell]
  by_cases h : i = a ∧ a < g.length
  · rw [if_pos h, List.length_set, h.1]
  · rw [if_neg h]

theorem getCell_setCell_same (g : Grid) (a b v : ℕ) (ha : a < g.length)
    (hb : b < (g.getD a []).length) : getCell (setCell g a b v) a b = v := by
  unfold getCell
  rw [row_setCell, if_pos ⟨rfl, ha⟩, List.getD_eq_getD_get?,
    List.get?_set_eq_of_lt _ hb, Option.getD_some]

theorem getCell_setCell_ne (g : Grid) (a b v i j : ℕ) (h : ¬(i = a ∧ j = b)) :
    getCell (setCell g a b v) i j = getCell g i j := by
  unfold getCell
  rw [row_setCell]
  by_cases hia : i = a ∧ a < g.length
  · obtain ⟨hia1, hia2⟩ := hia
    subst hia1
    rw [if_pos ⟨rfl, hia2⟩]
    have hjb : j ≠ b := fun hc => h ⟨rfl, hc⟩
    rw [List.getD_eq_getD_get?, List.get?_set_ne _ _ (fun hc => hjb hc.symm),
      ← List.getD_eq_getD_get?]
  · rw [if_neg hia]

/-- Double-then-clamp, iterated `k` times: the per-cell effect of `k`
covering win-record positions in `update_grid_mults`. -/
def dblClampPow (cap : ℕ) : ℕ → ℕ → ℕ
  | 0, v => v
  | k + 1, v => dblClampPow cap k (min (v * 2) cap)

theorem dblClampPow_add (cap k1 k2 v : ℕ) :
    dblClampPow cap (k1 + k2) v = dblClampPow cap k2 (dblClampPow cap k1 v) := by
  induction k1 generalizing v with
  | zero => simp [dblClampPow]
  | succ n ih =>
    have : n + 1 + k2 = (n + k2) + 1 := by omega
    rw [this]
    simp only [dblClampPow]
    exact ih _

/-- Number of occurrences of position `p` among all win records of a pass. -/
def countPos (p : ℕ × ℕ) (wins : List WinRec) : ℕ :=
  (wins.map WinRec.positions).flatten.count p

theorem foldl_grid_length {β : Type} (upd : Grid → β → Grid)
    (h : ∀ g b, (upd g b).length = g.length) :
    ∀ (l : List β) (g : Grid), (l.foldl upd g).length = g.length := by
  intro l
  induction l with
  | nil => intro g; rfl
  | cons b t ih => intro g; rw [List.foldl_cons, ih, h]

theorem foldl_grid_rowLen {β : Type} (upd : Grid → β → Grid)
    (h : ∀ g b i, ((upd g b).getD i []).length = (g.getD i []).length) :
    ∀ (l : List β) (g : Grid) (i : ℕ),
      ((l.foldl upd g).getD i []).length = (g.getD i []).length := by
  intro l
  induction l with
  | nil => intro g i; rfl
  | cons b t ih => intro g i; rw [List.foldl_cons, ih, h]

theorem getCell_posFold_clamp (cap : ℕ) (ps : List (ℕ × ℕ)) :
    ∀ (g : Grid) (i j : ℕ), i < g.length → j < (g.getD i []).length →
      getCell
        (ps.foldl (fun acc2 p => setCell acc2 p.1 p.2 (min (getCell acc2 p.1 p.2 * 2) cap)) g)
        i j
      = dblClampPow cap (ps.count (i, j)) (getCell g i j) := by
  induction ps with
  | nil => intro g i j _ _; rfl
  | cons p t ih =>
    intro g i j hi hj
    simp only [List.foldl_cons]
    by_cases hp : p = (i, j)
    · subst hp
      rw [ih _ i j (by rw [length_setCell]; exact hi)
        (by rw [rowLen_setCell]; exact hj)]
      rw [getCell_setCell_same _ _ _ _ hi hj]
      rw [List.count_cons_self]
      rw [show (t.count (i, j)) + 1 = 1 + t.count (i, j) by omega, dblClampPow_add]
      rfl
    · rw [ih _ i j (by rw [length_setCell]; exact hi)
        (by rw [rowLen_setCell]; exact hj)]
      rw [getCell_setCell_ne _ _ _ _ _ _ (by
        intro hc
        exact hp (Prod.ext hc.1.symm hc.2.symm))]
      rw [List.count_cons_of_ne (fun hc => hp hc.symm)]

theorem getCell_winFold_clamp (cap : ℕ) (wins : List WinRec) :
    ∀ (g : Grid) (i j : ℕ), i < g.length → j < (g.getD i []).length →
      getCell
        (wins.foldl
          (fun acc w =>
            w.positions.foldl
              (fun acc2 p => setCell acc2 p.1 p.2 (min (getCell acc2 p.1 p.2 * 2) cap)) acc)
          g) i j
      = dblClampPow cap (countPos (i, j) wins) (getCell g i j) := by
  induction wins with
  | nil => intro g i j _ _; rfl
  | cons w t ih =>
    intro g i j hi hj
    simp only [List.foldl_cons]
    rw [ih _ i j
      (by
        rw [foldl_grid_length
          (fun acc2 p => setCell acc2 p.1 p.2 (min (getCell acc2 p.1 p.2 * 2) cap))
          (fun g2 p => length_setCell g2 p.1 p.2 _) w.positions g]
        exact hi)
      (by
        rw [foldl_grid_rowLen
          (fun acc2 p => setCell acc2 p.1 p.2 (min (getCell acc2 p.1 p.2 * 2) cap))
          (fun g2 p i2 => rowLen_setCell g2 p.1 p.2 _ i2) w.positions g i]
        exact hj)]
    rw [getCell_posFold_clamp cap w.positions g i j hi hj]
    unfold countPos
    simp only [List.map_cons, List.flatten_cons, List.count_append]
    rw [dblClampPow_add]

theorem getCell_update_grid_mults (cap : ℕ) (tw : ℚ) (wins : List WinRec) (g : Grid)
    (i j : ℕ) (hi : i < g.length) (hj : j < (g.getD i []).length) (htw : 0 < tw) :
    getCell (update_grid_mults cap tw wins g) i j
      = dblClampPow cap (countPos (i, j) wins) (getCell g i j) := by
  unfold update_grid_mults
  rw [if_pos htw]
  exact getCell_winFold_clamp cap wins g i j hi hj

theorem getCell_posFold_dbl (ps : List (ℕ × ℕ)) :
    ∀ (g : Grid) (i j : ℕ), i < g.length → j < (g.getD i []).length →
      getCell
        (ps.foldl (fun acc2 p => setCell acc2 p.2 p.1 (getCell acc2 p.2 p.1 * 2)) g) i j
      = getCell g i j * 2 ^ (ps.count (j, i)) := by
  induction ps with
  | nil => intro g i j _ _; simp
  | cons p t ih =>
    intro g i j hi hj
    simp only [List.foldl_cons]
    by_cases hp : p = (j, i)
    · subst hp
      rw [ih _ i j (by rw [length_setCell]; exact hi)
        (by rw [rowLen_setCell]; exact hj)]
      rw [getCell_setCell_same _ _ _ _ hi hj]
      rw [List.count_cons_self, pow_succ]
      ring
    · rw [ih _ i j (by rw [length_setCell]; exact hi)
        (by rw [rowLen_setCell]; exact hj)]
      rw [getCell_setCell_ne _ _ _ _ _ _ (by
        intro hc
        exact hp (Prod.ext hc.2.symm hc.1.symm))]
      rw [List.count_cons_of_ne (fun hc => hp hc.symm)]

theorem getCell_update_cell_multipliers (wins : List WinRec) :
    ∀ (g : Grid) (i j : ℕ), i < g.length → j < (g.getD i []).length →
      getCell (update_cell_multipliers wins g) i j
        = getCell g i j * 2 ^ (countPos (j, i) wins) := by
  unfold update_cell_multipliers
  induction wins with
  | nil => intro g i j _ _; simp [countPos]
  | cons w t ih =>
    intro g i j hi hj
    simp only [List.foldl_cons]
    rw [ih _ i j
      (by
        rw [foldl_grid_length
          (fun acc2 p => setCell acc2 p.2 p.1 (getCell acc2 p.2 p.1 * 2))
          (fun g2 p => length_setCell g2 p.2 p.1 _) w.positions g]
        exact hi)
      (by
        rw [foldl_grid_rowLen
          (fun acc2 p => setCell acc2 p.2 p.1 (getCell acc2 p.2 p.1 * 2))
          (fun g2 p i2 => rowLen_setCell g2 p.2 p.1 _ i2) w.positions g i]
        exact hj)]
    rw [getCell_posFold_dbl w.positions g i j hi hj]
    unfold countPos
    simp only [List.map_cons, List.flatten_cons, List.count_append]
    rw [pow_add]
    ring

/-- A strictly positive power of two. -/
def IsPowTwo (v : ℕ) : Prop := ∃ m : ℕ, v = 2 ^ m

theorem dblClampPow64_inv (k : ℕ) :
    ∀ v : ℕ, IsPowTwo v → 1 ≤ v → v ≤ 64 →
      IsPowTwo (dblClampPow 64 k v) ∧ 1 ≤ dblClampPow 64 k v ∧
        dblClampPow 64 k v ≤ 64 ∧ v ≤ dblClampPow 64 k v := by
  induction k with
  | zero => intro v h1 h2 h3; exact ⟨h1, h2, h3, le_refl v⟩
  | succ n ih =>
    intro v h1 h2 h3
    have hstep : IsPowTwo (min (v * 2) 64) ∧ 1 ≤ min (v * 2) 64 ∧
        min (v * 2) 64 ≤ 64 ∧ v ≤ min (v * 2) 64 := by
      obtain ⟨m, hm⟩ := h1
      refine ⟨?_, le_min (by omega) (by omega), min_le_right _ _, le_min (by omega) h3⟩
      rcases le_or_lt (v * 2) 64 with hle | hlt
      · exact ⟨m + 1, by rw [min_eq_left hle, hm, pow_succ]⟩
      · exact ⟨6, by rw [min_eq_right (by omega)]; norm_num⟩
    obtain ⟨s1, s2, s3, s4⟩ := hstep
    obtain ⟨r1, r2, r3, r4⟩ := ih (min (v * 2) 64) s1 s2 s3
    exact ⟨r1, r2, r3, le_trans s4 r4⟩

/-- C4, counterexample: `update_grid_mults` doubles once per win record, so a
cell covered by two overlapping win records of the same pass is doubled twice
(1 → 4), while the spec's `apply_wins` doubles each covered cell exactly once
(1 → 2). -/
theorem claim_C4_counterexample :
    update_grid_mults 64 1 [⟨1, [(0, 0)]⟩, ⟨1, [(0, 0)]⟩] [[1]] = [[4]] ∧
    apply_wins_spec 64 [⟨1, [(0, 0)]⟩, ⟨1, [(0, 0)]⟩] [[1]] = [[2]] ∧
    update_grid_mults 64 1 [⟨1, [(0, 0)]⟩, ⟨1, [(0, 0)]⟩] [[1]]
      ≠ apply_wins_spec 64 [⟨1, [(0, 0)]⟩, ⟨1, [(0, 0)]⟩] [[1]] := by
  refine ⟨by decide, by decide, by decide⟩

/-- C4, amended: in every evaluation pass with positive total win,
`update_grid_mults` doubles a cell once per win-record position occurrence
covering it — `k` covering occurrences double it `k` times, clamping to the
configured maximum after each doubling — rather than exactly once per pass. -/
theorem claim_C4 (cap : ℕ) (tw : ℚ) (wins : List WinRec) (g : Grid) (i j : ℕ)
    (hi : i < g.length) (hj : j < (g.getD i []).length) (htw : 0 < tw) :
    getCell (update_grid_mults cap tw wins g) i j
      = dblClampPow cap (countPos (i, j) wins) (getCell g i j) :=
  getCell_update_grid_mults cap tw wins g i j hi hj htw

/-- C4, witness: the amended statement evaluated on the overlapping-wins
input, where the doubly covered cell ends at 4. -/
theorem claim_C4_witness :
    getCell (update_grid_mults 64 1 [⟨1, [(0, 0)]⟩, ⟨1, [(0, 0)]⟩] [[1]]) 0 0
      = dblClampPow 64 (countPos (0, 0) [⟨1, [(0, 0)]⟩, ⟨1, [(0, 0)]⟩])
          (getCell [[1]] 0 0) :=
  claim_C4 64 1 [⟨1, [(0, 0)]⟩, ⟨1, [(0, 0)]⟩] [[1]] 0 0 (by decide) (by decide)
    (by norm_num)

/-- C5, counterexample: volley_siege `update_cell_multipliers` applies no cap,
so seven wins on the same cell drive its multiplier to 128, above the
configured grid-multiplier cap (`maximum_board_mult = 64` is the cap the
sources configure for the position-multiplier mechanism). -/
theorem claim_C5_counterexample :
    update_cell_multipliers (List.replicate 7 ⟨0, [(0, 0)]⟩) [[1]] = [[128]] ∧
    ¬ getCell (update_cell_multipliers (List.replicate 7 ⟨0, [(0, 0)]⟩) [[1]]) 0 0
        ≤ maximum_board_mult := by
  refine ⟨by decide, by decide⟩

/-- C5, amended: grid cells hold powers of two ≥ 1 and never decrease except
at the explicit reset boundaries (`reset_grid_mults`, `init_multiplier_grid`,
which set every cell to 1); in alchemy `update_grid_mults` additionally keeps
every cell at most `maximum_board_mult`, while volley_siege
`update_cell_multipliers` enforces no upper bound. -/
theorem claim_C5 :
    (∀ (tw : ℚ) (wins : List WinRec) (g : Grid) (i j : ℕ),
        i < g.length → j < (g.getD i []).length →
        IsPowTwo (getCell g i j) → 1 ≤ getCell g i j →
        getCell g i j ≤ maximum_board_mult →
        IsPowTwo (getCell (update_grid_mults maximum_board_mult tw wins g) i j) ∧
        1 ≤ getCell (update_grid_mults maximum_board_mult tw wins g) i j ∧
        getCell (update_grid_mults maximum_board_mult tw wins g) i j
          ≤ maximum_board_mult ∧
        getCell g i j ≤ getCell (update_grid_mults maximum_board_mult tw wins g) i j) ∧
    (∀ (wins : List WinRec) (g : Grid) (i j : ℕ),
        i < g.length → j < (g.getD i []).length →
        IsPowTwo (getCell g i j) → 1 ≤ getCell g i j →
        IsPowTwo (getCell (update_cell_multipliers wins g) i j) ∧
        1 ≤ getCell (update_cell_multipliers wins g) i j ∧
        getCell g i j ≤ getCell (update_cell_multipliers wins g) i j) ∧
    (∀ (numReels : ℕ) (numRows : ℕ → ℕ) (i j : ℕ), i < numReels → j < numRows i →
        getCell (reset_grid_mults numReels numRows) i j = 1) ∧
    (∀ (nR nC i j : ℕ), i < nR → j < nC →
        getCell (init_multiplier_grid nR nC) i j = 1) := by
  refine ⟨?_, ?_, ?_, ?_⟩
  · intro tw wins g i j hi hj h1 h2 h3
    by_cases htw : 0 < tw
    · rw [getCell_update_grid_mults maximum_board_mult tw wins g i j hi hj htw]
      have := dblClampPow64_inv (countPos (i, j) wins) (getCell g i j) h1 h2 h3
      exact ⟨this.1, this.2.1, this.2.2.1, this.2.2.2⟩
    · rw [show update_grid_mults maximum_board_mult tw wins g = g from
        if_neg htw]
      exact ⟨h1, h2, h3, le_refl _⟩
  · intro wins g i j hi hj h1 h2
    rw [getCell_update_cell_multipliers wins g i j hi hj]
    obtain ⟨m, hm⟩ := h1
    refine ⟨⟨m + countPos (j, i) wins, by rw [hm, pow_add]⟩, ?_, ?_⟩
    · have : 1 ≤ 2 ^ (countPos (j, i) wins) := Nat.one_le_two_pow
      calc 1 ≤ getCell g i j := h2
        _ ≤ getCell g i j * 2 ^ (countPos (j, i) wins) :=
            Nat.le_mul_of_pos_right _ (by omega)
    · exact Nat.le_mul_of_pos_right _ (by positivity)
  · intro numReels numRows i j hi hj
    unfold getCell reset_grid_mults
    have h1 : ((List.range numReels).map (fun r => List.replicate (numRows r) 1)).getD i []
        = List.replicate (numRows i) 1 := by
      rw [List.getD_eq_getElem _ _ (by simpa using hi)]
      simp
    rw [h1, List.getD_eq_getElem _ _ (by simpa using hj)]
    simp
  · intro nR nC i j hi hj
    unfold getCell init_multiplier_grid
    have h1 : (List.replicate nR (List.replicate nC (1 : ℕ))).getD i []
        = List.replicate nC 1 := by
      rw [List.getD_eq_getElem _ _ (by simpa using hi)]
      simp
    rw [h1, List.getD_eq_getElem _ _ (by simpa using hj)]
    simp

/-- C5, witness: the amended invariants evaluated at a concrete cell, grid
and win list for each of the four conjuncts. -/
theorem claim_C5_witness :
    (IsPowTwo (getCell (update_grid_mults maximum_board_mult 1 [⟨1, [(0, 0)]⟩] [[2]]) 0 0) ∧
      1 ≤ getCell (update_grid_mults maximum_board_mult 1 [⟨1, [(0, 0)]⟩] [[2]]) 0 0 ∧
      getCell (update_grid_mults maximum_board_mult 1 [⟨1, [(0, 0)]⟩] [[2]]) 0 0
        ≤ maximum_board_mult ∧
      getCell [[2]] 0 0
        ≤ getCell (update_grid_mults maximum_board_mult 1 [⟨1, [(0, 0)]⟩] [[2]]) 0 0) ∧
    (IsPowTwo (getCell (update_cell_multipliers [⟨1, [(0, 0)]⟩] [[4]]) 0 0) ∧
      1 ≤ getCell (update_cell_multipliers [⟨1, [(0, 0)]⟩] [[4]]) 0 0 ∧
      getCell [[4]] 0 0 ≤ getCell (update_cell_multipliers [⟨1, [(0, 0)]⟩] [[4]]) 0 0) ∧
    getCell (reset_grid_mults 7 (fun _ => 7)) 3 4 = 1 ∧
    getCell (init_multiplier_grid 5 6) 2 3 = 1 :=
  ⟨claim_C5.1 1 [⟨1, [(0, 0)]⟩] [[2]] 0 0 (by decide) (by decide) ⟨1, rfl⟩ (by decide)
      (by decide),
    claim_C5.2.1 [⟨1, [(0, 0)]⟩] [[4]] 0 0 (by decide) (by decide) ⟨2, rfl⟩ (by decide),
    claim_C5.2.2.1 7 (fun _ => 7) 3 4 (by decide) (by decide),
    claim_C5.2.2.2 5 6 2 3 (by decide) (by decide)⟩

/-! ### Alchemy elixir bomb (`apply_elixir_bomb`) -/

/-- `bomb_explosion_radius` from the alchemy game config. -/
def bomb_explosion_radius : ℕ := 1

/-- Manhattan distance between two `(reel, row)` cells. -/
def manhattan (a b : ℕ × ℕ) : ℕ :=
  (((a.1 : ℤ) - b.1).natAbs + ((a.2 : ℤ) - b.2).natAbs)

/-- The per-bomb radius roll: 50% radius 1, 35% the configured radius, 15%
the configured radius plus one. -/
def sampleRadius (cfgRadius : ℕ) (roll : ℚ) : ℕ :=
  if roll < 1 / 2 then 1
  else if roll < 85 / 100 then cfgRadius
  else cfgRadius + 1

/-- The effect of one bomb on one board cell at `pos`: within the radius the
symbol is marked for explosion; outside it is untouched. -/
def bombSym (radius : ℕ) (bomb pos : ℕ × ℕ) (s : Sym) : Sym :=
  if manhattan pos bomb ≤ radius then { s with explode := true } else s

/-- The effect of one bomb on one grid cell at `pos`: within the radius the
multiplier doubles and clamps to the cap; outside it is untouched. -/
def bombMult (cap radius : ℕ) (bomb pos : ℕ × ℕ) (m : ℕ) : ℕ :=
  if manhattan pos bomb ≤ radius then min (m * 2) cap else m

/-- One bomb of `apply_elixir_bomb`: draw the radius roll, then sweep every
board cell, marking symbols in radius for explosion and doubling-and-clamping
their grid multipliers. -/
def apply_one_bomb (cap cfgRadius : ℕ) (bomb : ℕ × ℕ) (board : Board) (g : Grid)
    (r : Rng) : Board × Grid × Rng :=
  let roll := r.next
  let radius := sampleRadius cfgRadius roll.1
  (mapRowFrom (fun reel col => mapRowFrom (fun row s => bombSym radius bomb (reel, row) s) 0 col)
      0 board,
   mapRowFrom (fun reel col => mapRowFrom (fun row m => bombMult cap radius bomb (reel, row) m) 0 col)
      0 g,
   roll.2)

/-- Alchemy `GameExecutables.apply_elixir_bomb` over the bomb positions found
on the board, threading the random stream bomb by bomb. -/
def apply_elixir_bomb (cap cfgRadius : ℕ) (bombs : List (ℕ × ℕ)) (board : Board)
    (g : Grid) (r : Rng) : Board × Grid × Rng :=
  bombs.foldl
    (fun acc b => apply_one_bomb cap cfgRadius b acc.1 acc.2.1 acc.2.2)
    (board, g, r)

/-- Read the symbol at `(reel, row)` of a board, if present. -/
def getSym (board : Board) (i j : ℕ) : Option Sym :=
  (board.get? i).bind (fun col => col.get? j)

theorem getSym_nestedMap {α : Type} (F : ℕ → ℕ → α → α) (g : List (List α)) (i j : ℕ) :
    ((mapRowFrom (fun a col => mapRowFrom (F a) 0 col) 0 g).get? i).bind
        (fun col => col.get? j)
      = ((g.get? i).bind (fun col => col.get? j)).map (F i j) := by
  rw [get?_mapRowFrom]
  cases hc : g.get? i with
  | none => rfl
  | some col =>
    simp only [Option.map_some', Option.some_bind, Nat.zero_add]
    rw [get?_mapRowFrom]
    simp [Nat.zero_add]

theorem getCell_nestedMap (F : ℕ → ℕ → ℕ → ℕ) (g : Grid) (i j : ℕ)
    (hi : i < g.length) (hj : j < (g.getD i []).length) :
    getCell (mapRowFrom (fun a col => mapRowFrom (F a) 0 col) 0 g) i j
      = F i j (getCell g i j) := by
  unfold getCell
  have h1 : (mapRowFrom (fun a col => mapRowFrom (F a) 0 col) 0 g).getD i []
      = mapRowFrom (F i) 0 (g.getD i []) := by
    rw [List.getD_eq_getD_get?, get?_mapRowFrom, List.get?_eq_getElem?,
      List.getElem?_eq_getElem hi]
    simp only [Option.map_some', Option.getD_some, Nat.zero_add]
    rw [List.getD_eq_getElem _ _ hi]
  rw [h1, List.getD_eq_getD_get?, get?_mapRowFrom, List.get?_eq_getElem?,
    List.getElem?_eq_getElem hj]
  simp only [Option.map_some', Option.getD_some, Nat.zero_add]
  rw [List.getD_eq_getElem _ _ hj]

/-- C9: with a bomb on the board, every cell whose Manhattan distance from the
bomb is within the sampled radius is marked for explosion and has its
position multiplier doubled and clamped to the configured maximum — entirely
independent of any win landing there — while cells outside the radius are
untouched. -/
theorem claim_C9 (cap cfgRadius : ℕ) (b : ℕ × ℕ) (board : Board) (g : Grid)
    (r : Rng) (i j : ℕ) :
    (∀ s : Sym, getSym board i j = some s →
      manhattan (i, j) b ≤ sampleRadius cfgRadius (r.vals r.idx) →
      getSym (apply_elixir_bomb cap cfgRadius [b] board g r).1 i j
        = some { s with explode := true }) ∧
    (i < g.length → j < (g.getD i []).length →
      manhattan (i, j) b ≤ sampleRadius cfgRadius (r.vals r.idx) →
      getCell (apply_elixir_bomb cap cfgRadius [b] board g r).2.1 i j
        = min (getCell g i j * 2) cap) ∧
    (¬ manhattan (i, j) b ≤ sampleRadius cfgRadius (r.vals r.idx) →
      getSym (apply_elixir_bomb cap cfgRadius [b] board g r).1 i j = getSym board i j ∧
      (i < g.length → j < (g.getD i []).length →
        getCell (apply_elixir_bomb cap cfgRadius [b] board g r).2.1 i j
          = getCell g i j)) := by
  have hb : apply_elixir_bomb cap cfgRadius [b] board g r
      = apply_one_bomb cap cfgRadius b board g r := rfl
  refine ⟨?_, ?_, ?_⟩
  · intro s hs hin
    rw [hb]
    unfold apply_one_bomb getSym
    simp only
    rw [getSym_nestedMap (fun a c x => bombSym (sampleRadius cfgRadius (r.next).1) b (a, c) x)
      board i j]
    unfold getSym at hs
    rw [hs]
    simp only [Option.map_some']
    unfold bombSym
    rw [if_pos (show manhattan (i, j) b ≤ sampleRadius cfgRadius (r.next).1 from hin)]
  · intro hi hj hin
    rw [hb]
    unfold apply_one_bomb
    simp only
    rw [getCell_nestedMap (fun a c x => bombMult cap (sampleRadius cfgRadius (r.next).1) b (a, c) x)
      g i j hi hj]
    unfold bombMult
    rw [if_pos (show manhattan (i, j) b ≤ sampleRadius cfgRadius (r.next).1 from hin)]
  · intro hout
    constructor
    · rw [hb]
      unfold apply_one_bomb getSym
      simp only
      rw [getSym_nestedMap (fun a c x => bombSym (sampleRadius cfgRadius (r.next).1) b (a, c) x)
        board i j]
      cases hc : (board.get? i).bind (fun col => col.get? j) with
      | none => rfl
      | some s =>
        simp only [Option.map_some']
        unfold bombSym
        rw [if_neg (show ¬ manhattan (i, j) b ≤ sampleRadius cfgRadius (r.next).1 from hout)]
    · intro hi hj
      rw [hb]
      unfold apply_one_bomb
      simp only
      rw [getCell_nestedMap (fun a c x => bombMult cap (sampleRadius cfgRadius (r.next).1) b (a, c) x)
        g i j hi hj]
      unfold bombMult
      rw [if_neg (show ¬ manhattan (i, j) b ≤ sampleRadius cfgRadius (r.next).1 from hout)]

/-- C9, witness: radius roll 0 gives radius 1; the cell one step from the
bomb is exploded and its multiplier doubles from 2 to 4 although no win
covers it. -/
theorem claim_C9_witness :
    getSym (apply_elixir_bomb 64 1 [(0, 0)] [[create_symbol "H1"], [create_symbol "H2"]]
        [[1], [2]] ⟨fun _ => 0, 0⟩).1 1 0 = some ⟨"H2", none, true⟩ ∧
    getCell (apply_elixir_bomb 64 1 [(0, 0)] [[create_symbol "H1"], [create_symbol "H2"]]
        [[1], [2]] ⟨fun _ => 0, 0⟩).2.1 1 0 = min (getCell [[1], [2]] 1 0 * 2) 64 :=
  ⟨(claim_C9 64 1 (0, 0) [[create_symbol "H1"], [create_symbol "H2"]] [[1], [2]]
      ⟨fun _ => 0, 0⟩ 1 0).1 (create_symbol "H2") (by decide)
      (by simp [manhattan, sampleRadius]),
   (claim_C9 64 1 (0, 0) [[create_symbol "H1"], [create_symbol "H2"]] [[1], [2]]
      ⟨fun _ => 0, 0⟩ 1 0).2.1 (by decide) (by decide)
      (by simp [manhattan, sampleRadius])⟩

/-! ### Guillotine line evaluation post-processing (`evaluate_lines_board`)
and episode finalization -/

/-- `wincap` from the guillotine game config. -/
def wincap : ℚ := 20000

/-- The reels of a win whose matched cell is a wild carrying the
`reel_multiplier` attribute (a Python set; here a deduplicated list). -/
def reelsWithMult (board : Board) (w : WinRec) : List ℕ :=
  (w.positions.filterMap (fun p =>
    match getSym board p.1 p.2 with
    | some s => if s.name = "W" ∧ s.reelMultiplier ≠ none then some p.1 else none
    | none => none)).dedup

/-- `self.reel_multipliers.get(r, 1)`. -/
def multLookup (mults : List (ℕ × ℚ)) (i : ℕ) : ℚ :=
  ((mults.find? (fun e => e.1 == i)).map Prod.snd).getD 1

/-- The combined multiplier of a line win: 1 when no matched wild carries a
reel multiplier, otherwise the maximum reel multiplier over the contributing
reels (at most one contribution per win, never a product or sum). -/
def combined_mult (board : Board) (mults : List (ℕ × ℚ)) (w : WinRec) : ℚ :=
  match reelsWithMult board w with
  | [] => 1
  | a :: t => (t.map (multLookup mults)).foldl max (multLookup mults a)

/-- The adjusted per-line win of `evaluate_lines_board`: the raw line win
times the combined multiplier, clamped to the wincap. -/
def adjust_line_win (wc : ℚ) (board : Board) (mults : List (ℕ × ℚ)) (w : WinRec) : ℚ :=
  min (w.win * combined_mult board mults w) wc

/-- The new `totalWin` of `evaluate_lines_board`: the sum of adjusted line
wins, clamped once more to the wincap. -/
def evaluate_lines_total (wc : ℚ) (board : Board) (mults : List (ℕ × ℚ))
    (wins : List WinRec) : ℚ :=
  min ((wins.map (adjust_line_win wc board mults)).sum) wc

theorem foldl_max_attained (l : List ℚ) (a : ℚ) :
    (l.foldl max a = a ∨ l.foldl max a ∈ l) ∧ a ≤ l.foldl max a ∧
      ∀ x ∈ l, x ≤ l.foldl max a := by
  induction l generalizing a with
  | nil => exact ⟨Or.inl rfl, le_refl a, by intro x hx; cases hx⟩
  | cons b t ih =>
    obtain ⟨h1, h2, h3⟩ := ih (max a b)
    refine ⟨?_, le_trans (le_max_left a b) h2, ?_⟩
    · rcases h1 with h | h
      · rcases max_choice a b with hm | hm
        · exact Or.inl (by rw [List.foldl_cons, h, hm])
        · exact Or.inr (by rw [List.foldl_cons, h, hm]; exact List.mem_cons_self b t)
      · exact Or.inr (List.mem_cons_of_mem b h)
    · intro x hx
      rcases List.mem_cons.1 hx with hx | hx
      · subst hx
        exact le_trans (le_max_right a x) h2
      · exact h3 x hx

/-- Modelled from the spec: `evaluate_finalwin` (framework code not under
`src/`) sums base plus free game wins, clamps to the wincap exactly, and the
wincap-triggered flag records that the cap was reached (§4.6 Finalize,
§8). -/
def evaluate_finalwin (episodeWin wc : ℚ) : ℚ × Bool :=
  (min episodeWin wc, decide (wc ≤ episodeWin))

/-- C1: the finalized total win of an episode is the base-plus-free sum
clamped to the wincap, hence at most the wincap, with equality exactly when
the wincap was reached (the wincap-triggered flag); and the in-source
per-spin total of `evaluate_lines_board` is likewise clamped to the wincap. -/
theorem claim_C1 (baseWin freeWin wc : ℚ) :
    (evaluate_finalwin (baseWin + freeWin) wc).1 ≤ wc ∧
    ((evaluate_finalwin (baseWin + freeWin) wc).1 = wc ↔
      (evaluate_finalwin (baseWin + freeWin) wc).2 = true) ∧
    (∀ (board : Board) (mults : List (ℕ × ℚ)) (wins : List WinRec),
      evaluate_lines_total wc board mults wins ≤ wc) := by
  refine ⟨min_le_right _ _, ?_, fun board mults wins => min_le_right _ _⟩
  unfold evaluate_finalwin
  rw [decide_eq_true_eq]
  exact min_eq_right_iff

/-- C8: each line win of `evaluate_lines_board` is multiplied by a single
combined multiplier — 1, or the maximum (not product or sum) of the reel
multipliers of the wild-carrying reels matched by the line — and the result
is clamped to the episode wincap, as is the per-spin total. -/
theorem claim_C8 (wc : ℚ) (board : Board) (mults : List (ℕ × ℚ))
    (wins : List WinRec) (w : WinRec) :
    adjust_line_win wc board mults w ≤ wc ∧
    adjust_line_win wc board mults w = min (w.win * combined_mult board mults w) wc ∧
    (combined_mult board mults w = 1 ∨
      ∃ i ∈ reelsWithMult board w, combined_mult board mults w = multLookup mults i) ∧
    (∀ i ∈ reelsWithMult board w, multLookup mults i ≤ combined_mult board mults w) ∧
    evaluate_lines_total wc board mults wins ≤ wc := by
  refine ⟨min_le_right _ _, rfl, ?_, ?_, min_le_right _ _⟩
  · unfold combined_mult
    cases hr : reelsWithMult board w with
    | nil => exact Or.inl rfl
    | cons a t =>
      obtain ⟨h1, _, _⟩ := foldl_max_attained (t.map (multLookup mults)) (multLookup mults a)
      rcases h1 with h | h
      · exact Or.inr ⟨a, List.mem_cons_self a t, h⟩
      · obtain ⟨i, hi, hfi⟩ := List.mem_map.1 h
        exact Or.inr ⟨i, List.mem_cons_of_mem a hi, hfi.symm⟩
  · intro i hi
    unfold combined_mult
    cases hr : reelsWithMult board w with
    | nil => rw [hr] at hi; cases hi
    | cons a t =>
      rw [hr] at hi
      obtain ⟨_, h2, h3⟩ := foldl_max_attained (t.map (multLookup mults)) (multLookup mults a)
      rcases List.mem_cons.1 hi with hx | hx
      · subst hx; exact h2
      · exact h3 _ (List.mem_map_of_mem (multLookup mults) hx)

/-- C8, witness: a one-cell line win on a wild with reel multiplier 5 under
the configured wincap, with each conjunct instantiated. -/
theorem claim_C8_witness :
    adjust_line_win wincap [[⟨"W", some 5, false⟩]] [(0, 5)] ⟨2, [(0, 0)]⟩ ≤ wincap ∧
    adjust_line_win wincap [[⟨"W", some 5, false⟩]] [(0, 5)] ⟨2, [(0, 0)]⟩
      = min (WinRec.win ⟨2, [(0, 0)]⟩
          * combined_mult [[⟨"W", some 5, false⟩]] [(0, 5)] ⟨2, [(0, 0)]⟩) wincap ∧
    (combined_mult [[⟨"W", some 5, false⟩]] [(0, 5)] ⟨2, [(0, 0)]⟩ = 1 ∨
      ∃ i ∈ reelsWithMult [[⟨"W", some 5, false⟩]] ⟨2, [(0, 0)]⟩,
        combined_mult [[⟨"W", some 5, false⟩]] [(0, 5)] ⟨2, [(0, 0)]⟩
          = multLookup [(0, 5)] i) ∧
    (∀ i ∈ reelsWithMult [[⟨"W", some 5, false⟩]] ⟨2, [(0, 0)]⟩,
      multLookup [(0, 5)] i
        ≤ combined_mult [[⟨"W", some 5, false⟩]] [(0, 5)] ⟨2, [(0, 0)]⟩) ∧
    evaluate_lines_total wincap [[⟨"W", some 5, false⟩]] [(0, 5)] [⟨2, [(0, 0)]⟩] ≤ wincap :=
  claim_C8 wincap [[⟨"W", some 5, false⟩]] [(0, 5)] [⟨2, [(0, 0)]⟩] ⟨2, [(0, 0)]⟩

/-! ### Guillotine resolution (`resolve_guillotines`) -/

/-- `special_symbols["guillotine"]` from the guillotine config. -/
def guillotine_syms : List String := ["G"]

/-- `special_symbols["scatter"]` from the guillotine config. -/
def scatter_syms : List String := ["S"]

/-- The neutral filler symbol used to replace excess triggers. -/
def L5sym : Sym := create_symbol "L5"

/-- `multiplier_set` from the guillotine config. -/
def multiplier_set : List ℚ := [2, 3, 4, 5, 10, 15, 20, 25, 50, 100, 200]

/-- `g_mult_weights` from the guillotine config. -/
def g_mult_weights : List (ℚ × ℚ) :=
  [(2, 500), (3, 300), (4, 150), (5, 50), (10, 10), (15, 5), (20, 2), (25, 1),
    (50, 1 / 2), (100, 1 / 10), (200, 1 / 100)]

/-- `symbol_behead_weights` from the guillotine config. -/
def symbol_behead_weights : List (String × List (ℚ × ℚ)) :=
  [("H1", [(2, 500), (3, 300), (4, 100), (5, 50), (10, 10), (15, 5), (20, 2), (25, 1),
      (50, 1 / 10), (100, 1 / 100), (200, 1 / 1000)]),
   ("H2", [(2, 400), (3, 300), (4, 150), (5, 80), (10, 20), (15, 10), (20, 5), (25, 2),
      (50, 1 / 2), (100, 1 / 10), (200, 1 / 100)]),
   ("H3", [(2, 300), (3, 300), (4, 200), (5, 100), (10, 30), (15, 15), (20, 8), (25, 4),
      (50, 1), (100, 1 / 5), (200, 1 / 20)]),
   ("H4", [(2, 200), (3, 250), (4, 250), (5, 150), (10, 50), (15, 25), (20, 12), (25, 6),
      (50, 2), (100, 1 / 2), (200, 1 / 10)]),
   ("H5", [(2, 100), (3, 200), (4, 250), (5, 200), (10, 80), (15, 40), (20, 20), (25, 10),
      (50, 4), (100, 1), (200, 1 / 5)])]

/-- `symbol_behead_weights.get(name, symbol_behead_weights.get("H1", {}))`. -/
def behead_weights_for (s : String) : List (ℚ × ℚ) :=
  ((symbol_behead_weights.find? (fun e => e.1 == s)).map Prod.snd).getD
    (((symbol_behead_weights.find? (fun e => e.1 == "H1")).map Prod.snd).getD [])

/-- `jam_weights` from the guillotine config. -/
def jam_weights : List (String × ℚ) := [("jam", 1), ("drop", 9)]

/-- The guillotine paytable (pays per symbol and run length). -/
def guillotine_paytable : List ((ℕ × String) × ℚ) :=
  [((5, "H1"), 10), ((4, "H1"), 5), ((3, "H1"), 3),
   ((5, "H2"), 8), ((4, "H2"), 4), ((3, "H2"), 2),
   ((5, "H3"), 5), ((4, "H3"), 2), ((3, "H3"), 1),
   ((5, "H4"), 3), ((4, "H4"), 1), ((3, "H4"), 1 / 2),
   ((5, "H5"), 2), ((4, "H5"), 4 / 5), ((3, "H5"), 2 / 5),
   ((5, "L1"), 2), ((4, "L1"), 4 / 5), ((3, "L1"), 2 / 5),
   ((5, "L2"), 3 / 2), ((4, "L2"), 1 / 2), ((3, "L2"), 1 / 5),
   ((5, "L3"), 3 / 2), ((4, "L3"), 1 / 2), ((3, "L3"), 1 / 5),
   ((5, "L4"), 1), ((4, "L4"), 3 / 10), ((3, "L4"), 1 / 10),
   ((5, "L5"), 1), ((4, "L5"), 3 / 10), ((3, "L5"), 1 / 10),
   ((99, "G"), 0)]

/-- The high symbols: the paytable symbols whose name starts with "H". -/
def guillotine_highs : List String :=
  ((guillotine_paytable.map (fun e => e.1.2)).filter (fun s => s.startsWith "H")).dedup

/-- Walk a cumulative weight table: the exact selection rule of the sampler. -/
def pickWeighted {α : Type} : List (α × ℚ) → ℚ → α → α
  | [], _, fb => fb
  | (a, w) :: t, x, fb => if x < w then a else pickWeighted t (x - w) fb

/-- Modelled from the spec: `get_random_outcome` (src/calculations/statistics.py,
not under `src/`) draws one key from a weighted table with probability
weight/Σweights, consuming one value of the caller-provided uniform stream
(§4.1 WeightedSampler). -/
def get_random_outcome {α : Type} (table : List (α × ℚ)) (fb : α) (r : Rng) : α × Rng :=
  (pickWeighted table ((r.next).1 * (table.map Prod.snd).sum) fb, (r.next).2)

/-- `weights_table.get(m, 0)` over the fixed multiplier set. -/
def lookupWeight (tbl : List (ℚ × ℚ)) (m : ℚ) : ℚ :=
  ((tbl.find? (fun e => e.1 == m)).map Prod.snd).getD 0

/-- Guillotine `_draw_weighted_mult`: normalize the weight table over
`multiplier_set` order, then draw. -/
def draw_weighted_mult (weights : List (ℚ × ℚ)) (r : Rng) : ℚ × Rng :=
  get_random_outcome (multiplier_set.map (fun m => (m, lookupWeight weights m))) 0 r

/-- A bonus-mode configuration: whether jamming is allowed and the behead
combination mode ("ADD" or "MULTIPLY"). -/
structure ModeCfg where
  jamAllowed : Bool
  beheadMode : String

/-- Rows of a reel holding a symbol from `names` (`s_rows` / `g_rows`). -/
def symRows (reel : List Sym) (names : List String) : List ℕ :=
  (List.range reel.length).filter (fun i =>
    match reel.get? i with
    | some s => names.contains s.name
    | none => false)

/-- Replace the symbols at the given rows with `s`. -/
def replaceRows (reel : List Sym) (rows : List ℕ) (s : Sym) : List Sym :=
  mapRowFrom (fun i a => if i ∈ rows then s else a) 0 reel

/-- The per-reel trigger normalization of `resolve_guillotines`: when more
than one symbol of `names` is visible, every occurrence after the first is
replaced by the neutral filler L5. -/
def normalizeOnce (names : List String) (reel : List Sym) : List Sym :=
  if 1 < (symRows reel names).length then
    replaceRows reel (symRows reel names).tail L5sym
  else reel

/-- The wild-capability gate: skip the reel when a capability vector is set
and its entry for this reel is not "P". -/
def capSkip (cap : Option (List String)) (i : ℕ) : Bool :=
  match cap with
  | none => false
  | some c => decide (i < c.length) && (c.getD i "" != "P")

/-- Collect the behead multiplier draws for the high symbols in the drop
path, in row order, threading the random stream. -/
def beheadFold (reel2 : List Sym) (rows : List ℕ) (r : Rng) : List ℚ × Rng :=
  rows.foldl
    (fun acc rr =>
      match reel2.get? rr with
      | some s =>
          if guillotine_highs.contains s.name then
            ((acc.1 ++ [(draw_weighted_mult (behead_weights_for s.name) acc.2).1]),
              (draw_weighted_mult (behead_weights_for s.name) acc.2).2)
          else acc
      | none => acc)
    ([], r)

/-- Combine the base reel multiplier with the behead draws, additively or
multiplicatively per mode. -/
def combineMult (mode : ModeCfg) (gMult : ℚ) (beheadVals : List ℚ) : ℚ :=
  if mode.beheadMode.toUpper = "MULTIPLY" then beheadVals.foldl (· * ·) gMult
  else gMult + beheadVals.sum

/-- The wild symbol created on a drop, tagged with the reel multiplier. -/
def wildWith (t : ℚ) : Sym := { name := "W", reelMultiplier := some t }

/-- The per-reel body of `resolve_guillotines`: normalize excess S and G
symbols, then — unless the reel has no G, its wild capability is off, or a
jam is drawn — convert the first G and every cell below it into wilds
carrying one combined reel multiplier. -/
def processReel (mode : ModeCfg) (cap : Option (List String)) (i nrows : ℕ)
    (reel : List Sym) (r : Rng) : List Sym × Option ℚ × Rng :=
  let reel1 := normalizeOnce scatter_syms reel
  let reel2 := normalizeOnce guillotine_syms reel1
  match symRows reel1 guillotine_syms with
  | [] => (reel2, none, r)
  | gRow :: _ =>
    if capSkip cap i then (reel2, none, r)
    else
      let jam : Bool × Rng :=
        if mode.jamAllowed then
          ((get_random_outcome jam_weights "drop" r).1 == "jam",
            (get_random_outcome jam_weights "drop" r).2)
        else (false, r)
      if jam.1 then (reel2, none, jam.2)
      else
        let pathRows := List.range' (gRow + 1) (nrows - (gRow + 1))
        let gd := draw_weighted_mult g_mult_weights jam.2
        let bh := beheadFold reel2 pathRows gd.2
        let totalMult := combineMult mode gd.1 bh.1
        (mapRowFrom (fun rr a => if rr ∈ gRow :: pathRows then wildWith totalMult else a)
            0 reel2,
          some totalMult, bh.2)

/-- The reel-by-reel fold of `resolve_guillotines`, threading the stream and
collecting the per-reel multipliers. -/
def resolveGo (mode : ModeCfg) (cap : Option (List String)) (numRows : List ℕ) :
    ℕ → List (List Sym) → Rng → Board × List (ℕ × ℚ) × Rng
  | _, [], r => ([], [], r)
  | i, reel :: rest, r =>
    let pr := processReel mode cap i (numRows.getD i 0) reel r
    let rec' := resolveGo mode cap numRows (i + 1) rest pr.2.2
    (pr.1 :: rec'.1,
      (match pr.2.1 with
       | some v => (i, v) :: rec'.2.1
       | none => rec'.2.1),
      rec'.2.2)

/-- Guillotine `GameExecutables.resolve_guillotines` over a whole board. -/
def resolve_guillotines (mode : ModeCfg) (cap : Option (List String))
    (numRows : List ℕ) (board : Board) (r : Rng) : Board × List (ℕ × ℚ) × Rng :=
  resolveGo mode cap numRows 0 board r

theorem normalizeOnce_id (names : List String) (reel : List Sym)
    (h : (symRows reel names).length ≤ 1) : normalizeOnce names reel = reel := by
  unfold normalizeOnce
  rw [if_neg (by omega)]

/-- C6: on a normalized reel with one guillotine trigger, wild capability on
and jamming permitted — when the jam/drop draw returns jam the reel is left
unchanged and no reel multiplier is recorded; when it returns drop, the
trigger cell and every cell below it become wilds all carrying one identical
reel multiplier, cells above the trigger are untouched, and that multiplier
is recorded for the reel. -/
theorem claim_C6 (mode : ModeCfg) (cap : Option (List String)) (i nrows gRow : ℕ)
    (reel : List Sym) (r : Rng)
    (hs : (symRows reel scatter_syms).length ≤ 1)
    (hg : symRows reel guillotine_syms = [gRow])
    (hgn : gRow < nrows)
    (hcap : capSkip cap i = false)
    (hjam : mode.jamAllowed = true) :
    ((get_random_outcome jam_weights "drop" r).1 = "jam" →
      processReel mode cap i nrows reel r
        = (reel, none, (get_random_outcome jam_weights "drop" r).2)) ∧
    ((get_random_outcome jam_weights "drop" r).1 ≠ "jam" →
      ∃ t : ℚ,
        (processReel mode cap i nrows reel r).2.1 = some t ∧
        (∀ rr, gRow ≤ rr → rr < nrows →
          ((processReel mode cap i nrows reel r).1.get? rr)
            = (reel.get? rr).map (fun _ => wildWith t)) ∧
        (∀ rr, rr < gRow ∨ nrows ≤ rr →
          (processReel mode cap i nrows reel r).1.get? rr = reel.get? rr)) := by
  have h1 : normalizeOnce scatter_syms reel = reel := normalizeOnce_id _ _ hs
  have h2 : normalizeOnce guillotine_syms reel = reel :=
    normalizeOnce_id _ _ (by rw [hg]; exact le_refl 1)
  have hpr : processReel mode cap i nrows reel r
      = (if (get_random_outcome jam_weights "drop" r).1 == "jam" then
          (reel, none, (get_random_outcome jam_weights "drop" r).2)
        else
          (mapRowFrom
              (fun rr a =>
                if rr ∈ gRow :: List.range' (gRow + 1) (nrows - (gRow + 1)) then
                  wildWith (combineMult mode
                    (draw_weighted_mult g_mult_weights
                      (get_random_outcome jam_weights "drop" r).2).1
                    (beheadFold reel (List.range' (gRow + 1) (nrows - (gRow + 1)))
                      (draw_weighted_mult g_mult_weights
                        (get_random_outcome jam_weights "drop" r).2).2).1)
                else a)
              0 reel,
            some (combineMult mode
              (draw_weighted_mult g_mult_weights
                (get_random_outcome jam_weights "drop" r).2).1
              (beheadFold reel (List.range' (gRow + 1) (nrows - (gRow + 1)))
                (draw_weighted_mult g_mult_weights
                  (get_random_outcome jam_weights "drop" r).2).2).1),
            (beheadFold reel (List.range' (gRow + 1) (nrows - (gRow + 1)))
              (draw_weighted_mult g_mult_weights
                (get_random_outcome jam_weights "drop" r).2).2).2)) := by
    unfold processReel
    simp only [h1, h2, hg, hcap, hjam, Bool.false_eq_true, if_false, if_true]
  constructor
  · intro hdraw
    rw [hpr, if_pos (by rw [hdraw]; rfl)]
  · intro hdraw
    rw [hpr, if_neg (by simpa using hdraw)]
    refine ⟨_, rfl, ?_, ?_⟩
    · intro rr h3 h4
      rw [get?_mapRowFrom]
      have hmem : rr ∈ gRow :: List.range' (gRow + 1) (nrows - (gRow + 1)) := by
        rcases Nat.eq_or_lt_of_le h3 with h | h
        · exact h ▸ List.mem_cons_self _ _
        · exact List.mem_cons_of_mem _ (List.mem_range'_1.2 ⟨by omega, by omega⟩)
      cases hc : reel.get? rr with
      | none => rfl
      | some a => simp [hmem]
    · intro rr h3
      rw [get?_mapRowFrom]
      have hmem : rr ∉ gRow :: List.range' (gRow + 1) (nrows - (gRow + 1)) := by
        intro hc
        rcases List.mem_cons.1 hc with h | h
        · omega
        · have := List.mem_range'_1.1 h
          omega
      cases hc : reel.get? rr with
      | none => rfl
      | some a => simp [hmem]

/-- C6, witness: on the reel [G, L1, H1, L2] the stream value 0 draws jam
(reel unchanged, no multiplier) and the stream value 1 draws drop (trigger
cell and everything below become wilds with one shared multiplier). -/
theorem claim_C6_witness :
    (processReel ⟨true, "ADD"⟩ none 0 4
        [create_symbol "G", create_symbol "L1", create_symbol "H1", create_symbol "L2"]
        ⟨fun _ => 0, 0⟩
      = ([create_symbol "G", create_symbol "L1", create_symbol "H1", create_symbol "L2"],
          none, (get_random_outcome jam_weights "drop" ⟨fun _ => 0, 0⟩).2)) ∧
    (∃ t : ℚ,
      (processReel ⟨true, "ADD"⟩ none 0 4
          [create_symbol "G", create_symbol "L1", create_symbol "H1", create_symbol "L2"]
          ⟨fun _ => 1, 0⟩).2.1 = some t ∧
      (∀ rr, 0 ≤ rr → rr < 4 →
        ((processReel ⟨true, "ADD"⟩ none 0 4
            [create_symbol "G", create_symbol "L1", create_symbol "H1", create_symbol "L2"]
            ⟨fun _ => 1, 0⟩).1.get? rr)
          = ([create_symbol "G", create_symbol "L1", create_symbol "H1",
              create_symbol "L2"].get? rr).map (fun _ => wildWith t)) ∧
      (∀ rr, rr < 0 ∨ 4 ≤ rr →
        (processReel ⟨true, "ADD"⟩ none 0 4
            [create_symbol "G", create_symbol "L1", create_symbol "H1", create_symbol "L2"]
            ⟨fun _ => 1, 0⟩).1.get? rr
          = [create_symbol "G", create_symbol "L1", create_symbol "H1",
              create_symbol "L2"].get? rr)) :=
  ⟨(claim_C6 ⟨true, "ADD"⟩ none 0 4 0
      [create_symbol "G", create_symbol "L1", create_symbol "H1", create_symbol "L2"]
      ⟨fun _ => 0, 0⟩ (by decide) (by decide) (by decide) (by decide) rfl).1
      (by simp [get_random_outcome, pickWeighted, jam_weights, Rng.next]),
   (claim_C6 ⟨true, "ADD"⟩ none 0 4 0
      [create_symbol "G", create_symbol "L1", create_symbol "H1", create_symbol "L2"]
      ⟨fun _ => 1, 0⟩ (by decide) (by decide) (by decide) (by decide) rfl).2
      (by simp [get_random_outcome, pickWeighted, jam_weights, Rng.next])⟩

theorem mem_symRows (reel : List Sym) (names : List String) (i : ℕ) :
    i ∈ symRows reel names ↔
      ∃ s, reel.get? i = some s ∧ names.contains s.name = true := by
  unfold symRows
  rw [List.mem_filter, List.mem_range]
  constructor
  · rintro ⟨h1, h2⟩
    cases hc : reel.get? i with
    | none => rw [hc] at h2; cases h2
    | some s => rw [hc] at h2; exact ⟨s, rfl, h2⟩
  · rintro ⟨s, hs, hn⟩
    obtain ⟨hlt, _⟩ := List.get?_eq_some.1 hs
    exact ⟨hlt, by rw [hs]; exact hn⟩

theorem symRows_nodup (reel : List Sym) (names : List String) :
    (symRows reel names).Nodup :=
  (List.nodup_range reel.length).filter _

theorem symRows_mapIf (reel : List Sym) (rows : List ℕ) (s : Sym) (names : List String)
    (hs : names.contains s.name = false) :
    symRows (mapRowFrom (fun i a => if i ∈ rows then s else a) 0 reel) names
      = (symRows reel names).filter (fun i => !(decide (i ∈ rows))) := by
  unfold symRows
  rw [List.filter_filter, length_mapRowFrom]
  refine List.filter_congr ?_
  intro a ha
  rw [List.mem_range] at ha
  rw [get?_mapRowFrom]
  cases hc : reel.get? a with
  | none =>
    obtain ⟨_, _⟩ := List.get?_eq_some.1
      (List.get?_eq_get ha ▸ rfl : reel.get? a = some (reel.get ⟨a, ha⟩))
    rw [hc] at *
    simp_all
  | some x =>
    simp only [Option.map_some', Nat.zero_add]
    by_cases hmem : a ∈ rows
    · have hs' : s.name ∉ names := by simpa using hs
      simp [hmem, hs']
    · simp [hmem]

theorem filter_not_mem_tail (g1 : ℕ) (gs : List ℕ) (hnd : (g1 :: gs).Nodup) :
    (g1 :: gs).filter (fun i => !(decide (i ∈ gs))) = [g1] := by
  have hg1 : g1 ∉ gs := (List.nodup_cons.1 hnd).1
  have h2 : gs.filter (fun i => !(decide (i ∈ gs))) = [] :=
    List.filter_eq_nil.2 (by intro a ha; simp [ha])
  rw [List.filter_cons]
  simp [hg1, h2]

/-- What the trigger normalization does on a reel whose guillotine rows are
`g1 :: gs`: every later occurrence becomes the neutral filler L5, the first
occurrence is untouched, and exactly it survives. -/
theorem normalizeOnce_guillotine_spec (reel : List Sym) (g1 : ℕ) (gs : List ℕ)
    (hg : symRows reel guillotine_syms = g1 :: gs) :
    (∀ j ∈ gs, (normalizeOnce guillotine_syms reel).get? j = some L5sym) ∧
    (normalizeOnce guillotine_syms reel).get? g1 = reel.get? g1 ∧
    symRows (normalizeOnce guillotine_syms reel) guillotine_syms = [g1] := by
  have hnd : (g1 :: gs).Nodup := hg ▸ symRows_nodup reel guillotine_syms
  have hg1 : g1 ∉ gs := (List.nodup_cons.1 hnd).1
  cases gs with
  | nil =>
    have hid : normalizeOnce guillotine_syms reel = reel :=
      normalizeOnce_id _ _ (by rw [hg]; exact le_refl 1)
    refine ⟨?_, ?_, ?_⟩
    · intro j hj; cases hj
    · rw [hid]
    · rw [hid, hg]
  | cons x t =>
    have hrepl : normalizeOnce guillotine_syms reel
        = replaceRows reel (x :: t) L5sym := by
      unfold normalizeOnce
      rw [hg]
      rw [if_pos (by simp)]
      rfl
    have hL5 : guillotine_syms.contains L5sym.name = false := rfl
    refine ⟨?_, ?_, ?_⟩
    · intro j hj
      obtain ⟨s, hsj, _⟩ := (mem_symRows reel guillotine_syms j).1
        (hg ▸ List.mem_cons_of_mem g1 hj)
      rw [hrepl]
      unfold replaceRows
      rw [get?_mapRowFrom, hsj]
      simp [hj]
    · rw [hrepl]
      unfold replaceRows
      rw [get?_mapRowFrom]
      cases hc : reel.get? g1 with
      | none => rfl
      | some a => simp [hg1]
    · rw [hrepl]
      unfold replaceRows
      rw [symRows_mapIf reel (x :: t) L5sym guillotine_syms hL5, hg]
      exact filter_not_mem_tail g1 (x :: t) hnd

theorem normTwice_count (reel : List Sym) :
    (symRows (normalizeOnce guillotine_syms (normalizeOnce scatter_syms reel))
      guillotine_syms).length ≤ 1 := by
  cases h : symRows (normalizeOnce scatter_syms reel) guillotine_syms with
  | nil =>
    rw [normalizeOnce_id _ _ (by rw [h]; exact Nat.zero_le 1), h]
    exact Nat.zero_le 1
  | cons g1 gs =>
    rw [(normalizeOnce_guillotine_spec _ g1 gs h).2.2]
    exact le_refl 1

theorem processReel_board_cases (mode : ModeCfg) (cap : Option (List String))
    (i n : ℕ) (reel : List Sym) (r : Rng) :
    (processReel mode cap i n reel r).1
        = normalizeOnce guillotine_syms (normalizeOnce scatter_syms reel) ∨
      ∃ (t : ℚ) (rows : List ℕ),
        (processReel mode cap i n reel r).1
          = mapRowFrom (fun rr a => if rr ∈ rows then wildWith t else a) 0
              (normalizeOnce guillotine_syms (normalizeOnce scatter_syms reel)) := by
  unfold processReel
  dsimp only
  repeat' split
  all_goals first
    | (left; rfl)
    | (right; exact ⟨_, _, rfl⟩)

theorem processReel_count (mode : ModeCfg) (cap : Option (List String))
    (i n : ℕ) (reel : List Sym) (r : Rng) :
    (symRows (processReel mode cap i n reel r).1 guillotine_syms).length ≤ 1 := by
  rcases processReel_board_cases mode cap i n reel r with h | ⟨t, rows, h⟩
  · rw [h]; exact normTwice_count reel
  · rw [h, symRows_mapIf _ _ _ _ (by rfl)]
    exact le_trans (List.length_filter_le _ _) (normTwice_count reel)

theorem resolveGo_count (mode : ModeCfg) (cap : Option (List String))
    (numRows : List ℕ) (board : Board) :
    ∀ (i : ℕ) (r : Rng), ∀ reel' ∈ (resolveGo mode cap numRows i board r).1,
      (symRows reel' guillotine_syms).length ≤ 1 := by
  induction board with
  | nil => intro i r reel' h; cases h
  | cons reel rest ih =>
    intro i r reel' h
    simp only [resolveGo] at h
    rcases List.mem_cons.1 h with h | h
    · rw [h]; exact processReel_count mode cap i _ reel r
    · exact ih (i + 1) _ reel' h

/-- C7: after `resolve_guillotines` every reel carries at most one surviving
guillotine trigger; the normalization stage replaces every occurrence after
the first with the neutral filler L5, leaves the first occurrence in place,
and only the first occurrence survives into resolution. -/
theorem claim_C7 (mode : ModeCfg) (cap : Option (List String)) (numRows : List ℕ)
    (board : Board) (r : Rng) :
    (∀ reel' ∈ (resolve_guillotines mode cap numRows board r).1,
      (symRows reel' guillotine_syms).length ≤ 1) ∧
    (∀ (reel : List Sym) (g1 : ℕ) (gs : List ℕ),
      symRows reel guillotine_syms = g1 :: gs →
      (∀ j ∈ gs, (normalizeOnce guillotine_syms reel).get? j = some L5sym) ∧
      (normalizeOnce guillotine_syms reel).get? g1 = reel.get? g1 ∧
      symRows (normalizeOnce guillotine_syms reel) guillotine_syms = [g1]) :=
  ⟨resolveGo_count mode cap numRows board 0 r,
    fun reel g1 gs hg => normalizeOnce_guillotine_spec reel g1 gs hg⟩

/-- C7, witness: a board whose second reel holds two G symbols resolves with
at most one G per reel, and normalizing the reel [G, L1, G] turns row 2 into
L5 while keeping row 0, which alone survives. -/
theorem claim_C7_witness :
    (symRows [create_symbol "G", L5sym] guillotine_syms).length ≤ 1 ∧
    ((∀ j ∈ [2], (normalizeOnce guillotine_syms
        [create_symbol "G", create_symbol "L1", create_symbol "G"]).get? j
          = some L5sym) ∧
      (normalizeOnce guillotine_syms
        [create_symbol "G", create_symbol "L1", create_symbol "G"]).get? 0
        = [create_symbol "G", create_symbol "L1", create_symbol "G"].get? 0 ∧
      symRows (normalizeOnce guillotine_syms
        [create_symbol "G", create_symbol "L1", create_symbol "G"]) guillotine_syms
        = [0]) :=
  ⟨(claim_C7 ⟨false, "ADD"⟩ (some ["X", "X"]) [1, 2]
      [[create_symbol "G"], [create_symbol "G", create_symbol "G"]] ⟨fun _ => 0, 0⟩).1
      [create_symbol "G", L5sym] (by decide),
    (claim_C7 ⟨false, "ADD"⟩ (some ["X", "X"]) [1, 2]
      [[create_symbol "G"], [create_symbol "G", create_symbol "G"]] ⟨fun _ => 0, 0⟩).2
      [create_symbol "G", create_symbol "L1", create_symbol "G"] 0 [2] (by decide)⟩

/-- C10: when a wild-capability vector is set and its entry for the reel is
not "P", guillotine resolution skips the reel entirely: the board is only
trigger-normalized, no jam/drop draw is made (the random stream is returned
untouched), no wild is created and no per-reel multiplier is recorded — for
every mode, including those where a drop would otherwise be guaranteed. -/
theorem claim_C10 (mode : ModeCfg) (c : List String) (i nrows : ℕ)
    (reel : List Sym) (r : Rng)
    (hlen : i < c.length) (hcap : c.getD i "" ≠ "P") :
    processReel mode (some c) i nrows reel r
      = (normalizeOnce guillotine_syms (normalizeOnce scatter_syms reel), none, r) := by
  have hskip : capSkip (some c) i = true := by
    unfold capSkip
    rw [Bool.and_eq_true, decide_eq_true_eq, bne_iff_ne]
    exact ⟨hlen, hcap⟩
  unfold processReel
  dsimp only
  split
  · rfl
  · rw [if_pos hskip]

/-- C10, witness: capability entry "X" on reel 0 in a guaranteed-drop mode
(jam not allowed) leaves the G reel untouched and the stream unread. -/
theorem claim_C10_witness :
    processReel ⟨false, "MULTIPLY"⟩ (some ["X"]) 0 2
        [create_symbol "G", create_symbol "L1"] ⟨fun _ => 0, 0⟩
      = (normalizeOnce guillotine_syms
          (normalizeOnce scatter_syms [create_symbol "G", create_symbol "L1"]),
          none, ⟨fun _ => 0, 0⟩) :=
  claim_C10 ⟨false, "MULTIPLY"⟩ ["X"] 0 2 [create_symbol "G", create_symbol "L1"]
    ⟨fun _ => 0, 0⟩ (by decide) (by decide)

/-! ### Determinism of an episode (run_spin, reset_seed) -/

/-- Modelled from the spec: `random.randrange(n)` — one uniform draw in
[0, n) consuming one stream value. -/
def randBelow (n : ℕ) (r : Rng) : ℕ × Rng :=
  ((⌊(r.next).1 * n⌋).toNat % n, (r.next).2)

/-- One drawn reel column: `num_rows` consecutive strip symbols starting at
the stop, wrapping around the strip. -/
def drawColumn (strip : List String) (nrows stop : ℕ) : List Sym :=
  (List.range nrows).map (fun row => create_symbol (strip.getD ((stop + row) % strip.length) ""))

/-- Draw one uniform stop per entry of `lens`
(`[random.randrange(len(strip[i])) for i in range(num_reels)]`). -/
def drawStops : List ℕ → Rng → List ℕ × Rng
  | [], r => ([], r)
  | n :: rest, r =>
    let st := randBelow n r
    let rec' := drawStops rest st.2
    (st.1 :: rec'.1, rec'.2)

/-- Look up a named reel set (`self.reels[name]`). -/
def reelSetFor (reelSets : List (String × List (List String))) (name : String) :
    Option (List (List String)) :=
  (reelSets.find? (fun e => e.1 == name)).map Prod.snd

/-- Modelled from the spec: the framework `ReelBoard.draw` (not under `src/`,
§4.2): per reel index, pick one reel strip via the WeightedSampler over a
strip-name weight table, draw a uniform stop, and read the reel's row count
of consecutive wrapping symbols. -/
def base_draw_go (reelWeights : List (String × ℚ))
    (reelSets : List (String × List (List String))) (numRows : List ℕ) :
    ℕ → ℕ → Rng → Board × List ℕ × Rng
  | _, 0, r => ([], [], r)
  | i, n + 1, r =>
    let pick := get_random_outcome reelWeights "" r
    let strip := ((reelSetFor reelSets pick.1).getD []).getD i []
    let st := randBelow strip.length pick.2
    let col := drawColumn strip (numRows.getD i 0) st.1
    let rec' := base_draw_go reelWeights reelSets numRows (i + 1) n st.2
    (col :: rec'.1, st.1 :: rec'.2.1, rec'.2.2)

/-- Modelled from the spec: the whole framework board draw over all reels. -/
def base_draw_board (reelWeights : List (String × ℚ))
    (reelSets : List (String × List (List String))) (numReels : ℕ)
    (numRows : List ℕ) (r : Rng) : Board × List ℕ × Rng :=
  base_draw_go reelWeights reelSets numRows 0 numReels r

/-- Whether any guillotine trigger is visible on the board. -/
def boardHasG (board : Board) : Bool :=
  board.any (fun reel => reel.any (fun s => guillotine_syms.contains s.name))

/-- Write the symbol at `(reel, row)` of a board. -/
def setSym (board : Board) (i j : ℕ) (s : Sym) : Board :=
  board.set i ((board.getD i []).set j s)

/-- Guillotine `_ensure_guillotine_symbol`: when required and no G is
visible, force one onto a uniformly drawn cell. -/
def ensure_guillotine (guaranteed : Bool) (numReels : ℕ) (numRows : List ℕ)
    (board : Board) (r : Rng) : Board × Rng :=
  if !guaranteed then (board, r)
  else if boardHasG board then (board, r)
  else
    let a := randBelow numReels r
    let b := randBelow (numRows.getD a.1 0) a.2
    (setSym board a.1 b.1 (create_symbol "G"), b.2)

/-- Guillotine `_maybe_force_guillotine`: inject a guillotine if absent,
gated by a probability drawn from the stream. -/
def maybe_force_guillotine (chance : ℚ) (numReels : ℕ) (numRows : List ℕ)
    (board : Board) (r : Rng) : Board × Rng :=
  if chance ≤ 0 then (board, r)
  else if boardHasG board then (board, r)
  else
    let u := r.next
    if u.1 < chance then ensure_guillotine true numReels numRows board u.2
    else (board, u.2)

/-- Guillotine `draw_board` overlay logic: when the mode carries an overlay
map for the current gametype, draw one overlay reel name from it, draw one
stop per reel of that overlay set, and turn every cell whose overlay symbol
is "P" into a guillotine trigger. -/
def overlay_step (overlayMap : List (String × ℚ))
    (reelSets : List (String × List (List String))) (numReels : ℕ)
    (board : Board) (r : Rng) : Board × Rng :=
  if overlayMap = [] then (board, r)
  else
    let pick := get_random_outcome overlayMap "" r
    match reelSetFor reelSets pick.1 with
    | none => (board, pick.2)
    | some overlayStrips =>
      let stops := drawStops
        ((List.range numReels).map (fun i => (overlayStrips.getD i []).length)) pick.2
      (mapRowFrom
          (fun i col =>
            mapRowFrom
              (fun row s =>
                let strip := overlayStrips.getD i []
                if strip.getD ((stops.1.getD i 0 + row) % strip.length) "" = "P" then
                  create_symbol "G"
                else s)
              0 col)
          0 board,
        stops.2)

/-- Guillotine `draw_board` SSWCAP logic: with the capability reel set
present, draw one stop per reel and read the capability symbol for each
reel; otherwise every reel is capable ("P"). -/
def sswcap_step (sswcap : Option (List (List String))) (numReels : ℕ) (r : Rng) :
    List String × Rng :=
  match sswcap with
  | none => (List.replicate numReels "P", r)
  | some capReel =>
    let stops := drawStops
      ((List.range numReels).map (fun i => (capReel.getD i []).length)) r
    ((List.range numReels).map
        (fun i =>
          (capReel.getD i []).getD ((stops.1.getD i 0) % (capReel.getD i []).length) ""),
      stops.2)

/-- Guillotine `draw_board` (the normal reel path): the framework draw, then
the overlay P→G pass, then the SSWCAP capability draw, then the guarantee
and force-chance injections — in source order, every draw consuming the one
stream. -/
def draw_board_model (reelWeights : List (String × ℚ))
    (reelSets : List (String × List (List String)))
    (overlayMap : List (String × ℚ)) (sswcap : Option (List (List String)))
    (numReels : ℕ) (numRows : List ℕ) (guaranteed : Bool) (chance : ℚ)
    (r : Rng) : Board × List String × List ℕ × Rng :=
  let d := base_draw_board reelWeights reelSets numReels numRows r
  let ov := overlay_step overlayMap reelSets numReels d.1 d.2.2
  let cap := sswcap_step sswcap numReels ov.2
  let en := ensure_guillotine guaranteed numReels numRows ov.1 cap.2
  let mf := maybe_force_guillotine chance numReels numRows en.1 en.2
  (mf.1, cap.1, d.2.1, mf.2)

/-- Modelled from the spec: `reset_seed(sim)` (framework code not under
`src/`) re-seeds the one global random stream deterministically from the
simulation index, so every episode is independently reproducible (§5). -/
def seedRng (sim : ℕ) : Rng :=
  ⟨fun n => (((sim + 1) * 7919 + n * 104729) % 99991 : ℕ) / 99991, 0⟩

/-- The process-wide mutable state visible to an episode: the global random
stream and a stats accumulator that episodes write but whose value never
feeds back into outcomes. -/
structure EngineState where
  rng : Rng
  statsSpins : ℕ

/-- Everything a guillotine episode emits: the resolved board, the reel
stops, the drawn capability vector and the recorded per-reel multipliers —
the data from which its event stream is serialized. -/
structure SpinOutput where
  board : Board
  stops : List ℕ
  caps : List String
  mults : List (ℕ × ℚ)

/-- The guillotine `run_spin` sampling chain: re-seed the global stream from
`sim`, run the full `draw_board` (framework draw, overlay P→G, SSWCAP
capability draw, guarantee and force-chance injections), then resolve
guillotines under the drawn capability vector — every draw consuming the one
seeded stream. -/
def run_spin_model (st : EngineState) (sim : ℕ) (mode : ModeCfg)
    (reelWeights : List (String × ℚ)) (reelSets : List (String × List (List String)))
    (overlayMap : List (String × ℚ)) (sswcap : Option (List (List String)))
    (numReels : ℕ) (numRows : List ℕ) (guaranteed : Bool) (chance : ℚ) :
    SpinOutput × EngineState :=
  let r0 := seedRng sim
  let d := draw_board_model reelWeights reelSets overlayMap sswcap numReels numRows
    guaranteed chance r0
  let g := resolve_guillotines mode (some d.2.1) numRows d.1 d.2.2.2
  ({ board := g.1, stops := d.2.2.1, caps := d.2.1, mults := g.2.1 },
    { rng := g.2.2, statsSpins := st.statsSpins + 1 })

/-! The alchemy sampling sites: the symbol-triggered features of
`game_executables.py` (wild potion, symbol transform, elixir bomb), run in
the order of `_apply_features_after_tumbles` on positions scanned before the
pass. -/

/-- The names of the alchemy special symbols (wild, scatter, potion, bomb,
transform); cells holding one are not valid wild-placement targets
(`check_attribute("wild", "scatter", "potion", "bomb", "transform")`). -/
def alchemy_special_names : List String := ["W", "S", "P", "B", "T"]

/-- `transformable_symbols` from the alchemy config. -/
def transformable_symbols : List String :=
  ["L1", "L2", "L3", "L4", "H1", "H2", "H3", "H4"]

/-- `transform_target_symbols` from the alchemy config. -/
def transform_target_symbols : List String := ["H1", "H2", "H3", "H4"]

/-- `wild_potion_range` from the alchemy config. -/
def wild_potion_range : ℕ × ℕ := (1, 3)

/-- All board cells in scan order (reel-major), as the Python loops visit
them. -/
def scanCells (numReels : ℕ) (numRows : List ℕ) : List (ℕ × ℕ) :=
  (List.range numReels).flatMap
    (fun reel => (List.range (numRows.getD reel 0)).map (fun row => (reel, row)))

/-- The positions of one special symbol, in scan order (the
`special_syms_on_board` bookkeeping). -/
def symPositions (name : String) (numReels : ℕ) (numRows : List ℕ) (board : Board) :
    List (ℕ × ℕ) :=
  (scanCells numReels numRows).filter
    (fun p =>
      match getSym board p.1 p.2 with
      | some s => s.name == name
      | none => false)

/-- The valid wild-placement cells of `apply_wild_potion`: cells that are not
wild, scatter, potion, bomb or transform symbols. -/
def validPositions (numReels : ℕ) (numRows : List ℕ) (board : Board) : List (ℕ × ℕ) :=
  (scanCells numReels numRows).filter
    (fun p =>
      match getSym board p.1 p.2 with
      | some s => !(alchemy_special_names.contains s.name)
      | none => false)

/-- Modelled from the spec: `random.randint(a, b)` — one uniform draw on the
inclusive range, consuming one stream value. -/
def randint (a b : ℕ) (r : Rng) : ℕ × Rng :=
  (a + (randBelow (b - a + 1) r).1, (randBelow (b - a + 1) r).2)

/-- Modelled from the spec: `random.sample(pool, k)` — k distinct elements
drawn from the pool via the seeded stream, here by repeated uniform
index-and-remove. -/
def randSamplePos : ℕ → List (ℕ × ℕ) → Rng → List (ℕ × ℕ) × Rng
  | 0, _, r => ([], r)
  | k + 1, pool, r =>
    let idx := randBelow pool.length r
    let rec' := randSamplePos k (pool.eraseIdx idx.1) idx.2
    (pool.getD idx.1 (0, 0) :: rec'.1, rec'.2)

/-- Mark the symbol at a cell for removal (`sym.explode = True`). -/
def explodeAt (board : Board) (i j : ℕ) : Board :=
  match getSym board i j with
  | some s => setSym board i j { s with explode := true }
  | none => board

/-- One potion of `apply_wild_potion`: a 40% dud roll, otherwise a uniform
wild count in `wild_potion_range`; that many wilds (at most the number of
valid cells) are placed on distinct valid cells drawn from the stream, and
the potion symbol is marked for removal. -/
def apply_one_potion (numReels : ℕ) (numRows : List ℕ) (pos : ℕ × ℕ)
    (board : Board) (r : Rng) : Board × List (ℕ × ℕ) × Rng :=
  let dud := r.next
  let nw : ℕ × Rng :=
    if dud.1 < 2 / 5 then (0, dud.2)
    else randint wild_potion_range.1 wild_potion_range.2 dud.2
  let valid := validPositions numReels numRows board
  let placed : Board × List (ℕ × ℕ) × Rng :=
    if valid = [] then (board, [], nw.2)
    else
      let sel := randSamplePos (min nw.1 valid.length) valid nw.2
      (sel.1.foldl (fun b p => setSym b p.1 p.2 (create_symbol "W")) board,
        sel.1, sel.2)
  (explodeAt placed.1 pos.1 pos.2, placed.2.1, placed.2.2)

/-- Alchemy `GameExecutables.apply_wild_potion` over the potion positions,
threading the stream potion by potion (valid cells recomputed from the
mutated board each time) and collecting the placed wilds. -/
def apply_wild_potion (numReels : ℕ) (numRows : List ℕ)
    (potions : List (ℕ × ℕ)) (board : Board) (r : Rng) :
    Board × List (ℕ × ℕ) × Rng :=
  potions.foldl
    (fun acc p =>
      let one := apply_one_potion numReels numRows p acc.1 acc.2.2
      (one.1, acc.2.1 ++ one.2.1, one.2.2))
    (board, [], r)

/-- First-seen-order deduplication (Python dict key insertion order). -/
def firstSeenAux : List String → List String → List String
  | [], _ => []
  | a :: t, seen =>
    if seen.contains a then firstSeenAux t seen else a :: firstSeenAux t (a :: seen)

/-- First-seen-order deduplication of a name list. -/
def firstSeen (l : List String) : List String := firstSeenAux l []

/-- The transformable symbol names on the board, in first-seen scan order
(the `symbols_on_board` dict key order). -/
def transformKeys (numReels : ℕ) (numRows : List ℕ) (board : Board) : List String :=
  firstSeen
    ((scanCells numReels numRows).filterMap
      (fun p =>
        match getSym board p.1 p.2 with
        | some s =>
            if transformable_symbols.contains s.name then some s.name else none
        | none => none))

/-- Modelled from the spec: `random.choice(seq)` — one uniform pick,
consuming one stream value. -/
def choiceStr (l : List String) (r : Rng) : String × Rng :=
  (l.getD (randBelow l.length r).1 "", (randBelow l.length r).2)

/-- One transform of `apply_symbol_transform`: pick a source symbol among
those on the board, roll weak-vs-strong, pick the target tier, rewrite every
instance of the source, and mark the transform symbol for removal; when no
transformable symbol or no target is available the transform is skipped. -/
def apply_one_transform (numReels : ℕ) (numRows : List ℕ) (pos : ℕ × ℕ)
    (board : Board) (r : Rng) : Board × Rng :=
  let keys := transformKeys numReels numRows board
  if keys = [] then (board, r)
  else
    let src := choiceStr keys r
    let avail := transform_target_symbols.filter (fun s => !(s == src.1))
    if avail = [] then (board, src.2)
    else
      let roll := (src.2).next
      let target : String × Rng :=
        if roll.1 < 1 / 2 then
          let weak := avail.filter (fun s => s == "H3" || s == "H4")
          if weak = [] then choiceStr avail roll.2 else choiceStr weak roll.2
        else
          let strong := avail.filter (fun s => s == "H1" || s == "H2")
          if strong = [] then choiceStr avail roll.2 else choiceStr strong roll.2
      let b2 := (symPositions src.1 numReels numRows board).foldl
        (fun b p => setSym b p.1 p.2 (create_symbol target.1)) board
      (explodeAt b2 pos.1 pos.2, target.2)

/-- Alchemy `GameExecutables.apply_symbol_transform` over the transform
positions. -/
def apply_symbol_transform (numReels : ℕ) (numRows : List ℕ)
    (transforms : List (ℕ × ℕ)) (board : Board) (r : Rng) : Board × Rng :=
  transforms.foldl
    (fun acc p => apply_one_transform numReels numRows p acc.1 acc.2)
    (board, r)

/-- The alchemy feature pass of `_apply_features_after_tumbles`: the potion,
transform and bomb positions are all read from the board state at entry, and
the features run in source order — wild potion, symbol transform, elixir
bomb — on the one stream. -/
def alchemy_feature_pass (cap cfgRadius numReels : ℕ) (numRows : List ℕ)
    (board : Board) (grid : Grid) (r : Rng) : Board × Grid × Rng :=
  let potions := symPositions "P" numReels numRows board
  let transforms := symPositions "T" numReels numRows board
  let bombs := symPositions "B" numReels numRows board
  let p := apply_wild_potion numReels numRows potions board r
  let t := apply_symbol_transform numReels numRows transforms p.1 p.2.2
  let b := apply_elixir_bomb cap cfgRadius bombs t.1 grid t.2
  (b.1, b.2.1, b.2.2)

/-- Everything the alchemy episode model emits: the post-feature board, the
multiplier grid and the draw stops. -/
structure AlchemySpinOutput where
  board : Board
  grid : Grid
  stops : List ℕ

/-- The alchemy `run_spin` sampling chain: re-seed the global stream from
`sim`, draw the board, reset the multiplier grid, then run the
symbol-triggered feature pass — every draw consuming the one seeded
stream. -/
def alchemy_run_spin_model (st : EngineState) (sim : ℕ)
    (reelWeights : List (String × ℚ)) (reelSets : List (String × List (List String)))
    (numReels : ℕ) (numRows : List ℕ) (cap cfgRadius : ℕ) :
    AlchemySpinOutput × EngineState :=
  let r0 := seedRng sim
  let d := base_draw_board reelWeights reelSets numReels numRows r0
  let grid0 := reset_grid_mults numReels (fun i => numRows.getD i 0)
  let f := alchemy_feature_pass cap cfgRadius numReels numRows d.1 grid0 d.2.2
  ({ board := f.1, grid := f.2.1, stops := d.2.1 },
    { rng := f.2.2, statsSpins := st.statsSpins + 1 })

/-- C2: an episode's outputs are a function of the seed and condition set
alone — `run_spin` first overwrites the only mutable random source with the
seed-determined stream, and every later sampling site (the framework board
draw, the guillotine overlay P→G and SSWCAP capability draws, the guarantee
and force-chance injections, the jam/drop and multiplier draws of
`resolve_guillotines`, and alchemy's wild-potion, symbol-transform and
elixir-bomb draws) consumes that one stream — so two runs with the same seed
from arbitrary prior global states (including the state left by a previous
run) emit identical boards, stops, capability vectors, multiplier records
and grids, hence byte-identical event streams. -/
theorem claim_C2 (st1 st2 : EngineState) (sim : ℕ) (mode : ModeCfg)
    (reelWeights overlayMap : List (String × ℚ))
    (reelSets : List (String × List (List String)))
    (sswcap : Option (List (List String))) (numReels : ℕ) (numRows : List ℕ)
    (guaranteed : Bool) (chance : ℚ) (cap cfgRadius : ℕ) :
    (run_spin_model st1 sim mode reelWeights reelSets overlayMap sswcap numReels
        numRows guaranteed chance).1
      = (run_spin_model st2 sim mode reelWeights reelSets overlayMap sswcap numReels
        numRows guaranteed chance).1 ∧
    (run_spin_model (run_spin_model st1 sim mode reelWeights reelSets overlayMap
        sswcap numReels numRows guaranteed chance).2 sim mode reelWeights reelSets
        overlayMap sswcap numReels numRows guaranteed chance).1
      = (run_spin_model st1 sim mode reelWeights reelSets overlayMap sswcap numReels
        numRows guaranteed chance).1 ∧
    (alchemy_run_spin_model st1 sim reelWeights reelSets numReels numRows
        cap cfgRadius).1
      = (alchemy_run_spin_model st2 sim reelWeights reelSets numReels numRows
        cap cfgRadius).1 ∧
    (alchemy_run_spin_model (alchemy_run_spin_model st1 sim reelWeights reelSets
        numReels numRows cap cfgRadius).2 sim reelWeights reelSets numReels numRows
        cap cfgRadius).1
      = (alchemy_run_spin_model st1 sim reelWeights reelSets numReels numRows
        cap cfgRadius).1 :=
  ⟨rfl, rfl, rfl, rfl⟩

/-! ### Termination of the cascade (tumble) loop -/

/-- The `while totalWin > 0 and not wincap_triggered` loop of `run_spin`,
with an explicit fuel bound and an iteration counter.  `step` is one tumble
iteration (remove winning symbols, refill, re-evaluate). -/
def tumble_loop {σ : Type} (step : σ → σ) (totalWin : σ → ℚ) (capHit : σ → Bool) :
    ℕ → σ → σ × ℕ
  | 0, s => (s, 0)
  | fuel + 1, s =>
    if 0 < totalWin s ∧ capHit s = false then
      ((tumble_loop step totalWin capHit fuel (step s)).1,
        (tumble_loop step totalWin capHit fuel (step s)).2 + 1)
    else (s, 0)

theorem tumble_loop_measure {σ : Type} (step : σ → σ) (totalWin : σ → ℚ)
    (capHit : σ → Bool) (supply : σ → ℕ)
    (hdec : ∀ s, 0 < totalWin s → capHit s = false → supply (step s) < supply s) :
    ∀ (fuel : ℕ) (s : σ), supply s < fuel →
      (tumble_loop step totalWin capHit fuel s).2
          + supply (tumble_loop step totalWin capHit fuel s).1 ≤ supply s ∧
      (totalWin (tumble_loop step totalWin capHit fuel s).1 ≤ 0 ∨
        capHit (tumble_loop step totalWin capHit fuel s).1 = true) := by
  intro fuel
  induction fuel with
  | zero => intro s h; omega
  | succ n ih =>
    intro s h
    by_cases hc : 0 < totalWin s ∧ capHit s = false
    · have hlt := hdec s hc.1 hc.2
      obtain ⟨hb, he⟩ := ih (step s) (by omega)
      simp only [tumble_loop, if_pos hc]
      exact ⟨by omega, he⟩
    · simp only [tumble_loop, if_neg hc]
      refine ⟨by omega, ?_⟩
      by_cases h1 : 0 < totalWin s
      · right
        cases hcap : capHit s with
        | false => exact absurd ⟨h1, hcap⟩ hc
        | true => rfl
      · left; exact le_of_not_lt h1

theorem tumble_loop_fuel_irrel {σ : Type} (step : σ → σ) (totalWin : σ → ℚ)
    (capHit : σ → Bool) (supply : σ → ℕ)
    (hdec : ∀ s, 0 < totalWin s → capHit s = false → supply (step s) < supply s) :
    ∀ (fuel fuel2 : ℕ) (s : σ), supply s < fuel → supply s < fuel2 →
      tumble_loop step totalWin capHit fuel s
        = tumble_loop step totalWin capHit fuel2 s := by
  intro fuel
  induction fuel with
  | zero => intro fuel2 s h; omega
  | succ n ih =>
    intro fuel2 s h1 h2
    cases fuel2 with
    | zero => omega
    | succ m =>
      by_cases hc : 0 < totalWin s ∧ capHit s = false
      · have hlt := hdec s hc.1 hc.2
        simp only [tumble_loop, if_pos hc]
        rw [ih m (step s) (by omega) (by omega)]
      · simp only [tumble_loop, if_neg hc]

/-- C3, spec-modelled cascade bound: with `supply` the remaining refill
capacity (at most cells × max refill count) and every winning iteration
strictly consuming supply (it removes at least one symbol, each removal
consuming one refill), the tumble loop of `run_spin` terminates — its result
is fuel-independent — after at most cells × max refill count iterations in
total, counting the loop re-entered after the feature pass, and it exits
only with no win left or the wincap triggered. -/
theorem claim_C3 {σ : Type} (step featureStep : σ → σ) (totalWin : σ → ℚ)
    (capHit : σ → Bool) (supply : σ → ℕ) (cells maxRefills : ℕ)
    (hdec : ∀ s, 0 < totalWin s → capHit s = false → supply (step s) < supply s)
    (hfeat : ∀ s, supply (featureStep s) ≤ supply s)
    (s : σ) (hsup : supply s ≤ cells * maxRefills) :
    (tumble_loop step totalWin capHit (cells * maxRefills + 1) s).2
        + (tumble_loop step totalWin capHit (cells * maxRefills + 1)
            (featureStep
              (tumble_loop step totalWin capHit (cells * maxRefills + 1) s).1)).2
      ≤ cells * maxRefills ∧
    (totalWin (tumble_loop step totalWin capHit (cells * maxRefills + 1)
          (featureStep
            (tumble_loop step totalWin capHit (cells * maxRefills + 1) s).1)).1 ≤ 0 ∨
      capHit (tumble_loop step totalWin capHit (cells * maxRefills + 1)
          (featureStep
            (tumble_loop step totalWin capHit (cells * maxRefills + 1) s).1)).1
        = true) ∧
    (∀ fuel : ℕ, cells * maxRefills < fuel →
      tumble_loop step totalWin capHit fuel s
        = tumble_loop step totalWin capHit (cells * maxRefills + 1) s) := by
  obtain ⟨hb1, _⟩ := tumble_loop_measure step totalWin capHit supply hdec
    (cells * maxRefills + 1) s (by omega)
  have hs1 : supply (featureStep
      (tumble_loop step totalWin capHit (cells * maxRefills + 1) s).1)
      ≤ supply (tumble_loop step totalWin capHit (cells * maxRefills + 1) s).1 :=
    hfeat _
  obtain ⟨hb2, he2⟩ := tumble_loop_measure step totalWin capHit supply hdec
    (cells * maxRefills + 1)
    (featureStep (tumble_loop step totalWin capHit (cells * maxRefills + 1) s).1)
    (by omega)
  refine ⟨by omega, he2, ?_⟩
  intro fuel hf
  exact tumble_loop_fuel_irrel step totalWin capHit supply hdec fuel
    (cells * maxRefills + 1) s (by omega) (by omega)

/-- C3, witness: the bound instantiated on a toy cascade state (supply 3 on a
2 × 2 cell-refill budget) whose step consumes exactly one unit. -/
theorem claim_C3_witness :
    (tumble_loop Nat.pred (fun s => (s : ℚ)) (fun _ => false) (2 * 2 + 1) 3).2
        + (tumble_loop Nat.pred (fun s => (s : ℚ)) (fun _ => false) (2 * 2 + 1)
            (id (tumble_loop Nat.pred (fun s => (s : ℚ)) (fun _ => false) (2 * 2 + 1) 3).1)).2
      ≤ 2 * 2 ∧
    ((((tumble_loop Nat.pred (fun s => (s : ℚ)) (fun _ => false) (2 * 2 + 1)
          (id (tumble_loop Nat.pred (fun s => (s : ℚ)) (fun _ => false) (2 * 2 + 1) 3).1)).1 : ℕ) : ℚ) ≤ 0 ∨
      (fun (_ : ℕ) => false) (tumble_loop Nat.pred (fun s => (s : ℚ)) (fun _ => false) (2 * 2 + 1)
          (id (tumble_loop Nat.pred (fun s => (s : ℚ)) (fun _ => false) (2 * 2 + 1) 3).1)).1
        = true) ∧
    (∀ fuel : ℕ, 2 * 2 < fuel →
      tumble_loop Nat.pred (fun s => (s : ℚ)) (fun _ => false) fuel 3
        = tumble_loop Nat.pred (fun s => (s : ℚ)) (fun _ => false) (2 * 2 + 1) 3) :=
  claim_C3 Nat.pred id (fun s => (s : ℚ)) (fun _ => false) id 2 2
    (by
      intro s hs _
      have hs2 : (0 : ℚ) < (s : ℚ) := hs
      have hs3 : 0 < s := by exact_mod_cast hs2
      simp only [id_eq, Nat.pred_eq_sub_one]
      omega)
    (fun s => le_refl s) 3 (by decide)

end MathSDK
